import Mathlib

/-!
Verification of the webthing-node CoAP binding against its specification.

The development shallowly embeds the Thing entity model (`Thing` class of the
repository), the description renderer and link-format discovery encoder
(`helpers.getDescription`, `helpers.getCoreLinkFormat`), and the CoAP resource
handlers (`CoapPropertyHandler`, `CoapActionsHandler`, `CoapActionIDHandler`,
`CoapCoreHandler`, `CoapCoresHandler`).

JSON documents are modelled by `JVal`.  JavaScript objects are modelled as
insertion-ordered association lists, which is exactly the enumeration order
`for ... in` uses for the string-keyed objects this code builds.  External
JSON-schema validation (`ajv.validate`) is, per the specification, a black box
`validate(schema, input) → bool`; a schema therefore appears in the model as
the predicate obtained by partially applying that black box, i.e. a value of
type `JVal → Bool`.

Classes of the repository that are not part of the provided sources
(`Property`, `Value`, `Action`, `Event`, `SingleThing`, `MultipleThings`) are
modelled from the specification; each such definition carries a doc comment
saying so.  Exceptions in the JavaScript sources are modelled with
`Except`/`Option` results, and a handler letting an exception escape is the
`raised` outcome.  Real time (timestamps, timers) and the asynchronous body of
an action are outside the embedding; only the synchronous state transitions
are modelled.
-/

namespace WebThing

/-- A JSON value, as produced by `JSON.parse` and consumed by the handlers.
Numbers are modelled as integers; no claim in scope depends on non-integer
numerics. -/
inductive JVal where
  | null : JVal
  | bool (b : Bool) : JVal
  | num (n : Int) : JVal
  | str (s : String) : JVal
  | arr (elts : List JVal) : JVal
  | obj (fields : List (String × JVal)) : JVal

/-- Lookup in an insertion-ordered association list (JavaScript object
property access `o[k]`, returning `none` where JavaScript yields
`undefined`). -/
def alookup {α : Type} : List (String × α) → String → Option α
  | [], _ => none
  | p :: rest, key => if p.1 = key then some p.2 else alookup rest key

/-- Replace the value stored under `key` (JavaScript in-place update of an
existing object property); entries under other keys are untouched and the
list is unchanged when the key is absent. -/
def alupdate {α : Type} (l : List (String × α)) (key : String) (f : α → α) :
    List (String × α) :=
  l.map (fun p => if p.1 = key then (p.1, f p.2) else p)

/-- JavaScript falsiness of a JSON value (`null`, `false`, `0` and `""` are
falsy; objects and arrays are always truthy). -/
def jsFalsy : JVal → Bool
  | .null => true
  | .bool b => !b
  | .num n => n == 0
  | .str s => s == ""
  | .arr _ => false
  | .obj _ => false

/-- The JavaScript expression `v || null`: falsy values collapse to `null`. -/
def jsOrNull (v : JVal) : JVal :=
  if jsFalsy v then JVal.null else v

/-- The value of a decimal digit character, read off the code-point range. -/
def jsDigit? (c : Char) : Option Nat :=
  if '0' ≤ c ∧ c ≤ '9' then some (c.toNat - '0'.toNat) else none

/-- Accumulate the remaining digits of a decimal numeral onto `acc`; `none`
as soon as a non-digit appears. -/
def jsReadDigits (acc : Nat) : List Char → Option Nat
  | [] => some acc
  | c :: cs =>
    match jsDigit? c with
    | some d => jsReadDigits (10 * acc + d) cs
    | none => none

/-- The canonical array-index reading of a key: `some i` exactly when `k` is
the decimal numeral of `i` without leading zeros.  These are the keys
JavaScript arrays and boxed strings own as index keys when in range
(`[42].hasOwnProperty('0')` is true, `[42].hasOwnProperty('00')` is not). -/
def jsIndexKey? (k : String) : Option Nat :=
  match k.data with
  | [] => none
  | ['0'] => some 0
  | c :: cs =>
    if c = '0' then none
    else
      match jsDigit? c with
      | some d => jsReadDigits d cs
      | none => none

/-- The in-range index a key denotes on an array or boxed string of the
given length, if any. -/
def jsIndexOf (k : String) (len : Nat) : Option Nat :=
  match jsIndexKey? k with
  | some i => if i < len then some i else none
  | none => none

/-- `body.hasOwnProperty(k)` on a parsed JSON value.  On `null` the call
throws a `TypeError` (`none`); objects answer by key membership; arrays and
boxed strings own their index keys and `length`; boxed numbers and booleans
own no such key. -/
def jsHasOwn : JVal → String → Option Bool
  | .null, _ => none
  | .obj fields, k => some (fields.any (fun p => p.1 == k))
  | .arr elts, k => some ((jsIndexOf k elts.length).isSome || k == "length")
  | .str s, k => some ((jsIndexOf k s.length).isSome || k == "length")
  | _, _ => some false

/-- `body[k]` on a parsed JSON value, defaulting to `null` where JavaScript
yields `undefined`: key lookup on objects, element access and `length` on
arrays, single-character access and `length` on boxed strings. -/
def jsGet : JVal → String → JVal
  | .obj fields, k => (alookup fields k).getD JVal.null
  | .arr elts, k =>
    match jsIndexOf k elts.length with
    | some i => elts.getD i JVal.null
    | none => if k == "length" then JVal.num (elts.length : Int) else JVal.null
  | .str s, k =>
    match jsIndexOf k s.length with
    | some i => JVal.str (s.data.getD i ' ').toString
    | none => if k == "length" then JVal.num (s.length : Int) else JVal.null
  | _, _ => JVal.null

/-- The key/value pairs visited by `for (const k in body)` on a parsed JSON
value: object keys in insertion order, array and string indices, nothing for
primitives and `null`. -/
def jsForIn : JVal → List (String × JVal)
  | .obj fields => fields
  | .arr elts => elts.enum.map (fun p => (toString p.1, p.2))
  | .str s => s.data.enum.map (fun p => (toString p.1, JVal.str p.2.toString))
  | _ => []

/-- `Object.assign(base, add)`: keys already in `base` keep their position and
take the new value, fresh keys of `add` are appended. -/
def objAssign (base add : List (String × JVal)) : List (String × JVal) :=
  (base.map (fun p =>
    match alookup add p.1 with
    | some v => (p.1, v)
    | none => p))
  ++ add.filter (fun q => !(base.any (fun p => p.1 == q.1)))

/-- `Array.prototype.join(',')`. -/
def joinComma : List String → String
  | [] => ""
  | [x] => x
  | x :: y :: xs => x ++ "," ++ joinComma (y :: xs)

/-- An opaque notification sink (the websocket of `addSubscriber`).  `send`
reports whether delivery succeeded; a `false` models the `send` call
throwing, which the fan-out loops swallow. -/
structure Subscriber where
  sid : Nat
  send : JVal → Bool

/-- A `@type` annotation of a property description: a scalar string or a list
of strings, mirroring the `Array.isArray` test of the encoder. -/
inductive AtType where
  | scalar (s : String) : AtType
  | list (ss : List String) : AtType

/-- One entry of a `links` array of a rendered description. -/
structure RLink where
  href : String
  rel : String

/-- One resource of a rendered description's `properties` / `actions` /
`events` group, restricted to the fields the discovery encoder reads:
the optional `links` array, the optional `@type` and the optional `title`. -/
structure Resource where
  links : Option (List RLink)
  atType : Option AtType
  title : Option String

/-- The fixed `securityDefinitions` object of a rendered description. -/
structure SecScheme where
  scheme : String

/-- A rendered thing description, restricted to the fields the encoder and
the claims read.  `href`, `base`, `securityDefinitions` and `security` are
absent (`none`) until `getDescription` adds them. -/
structure Description where
  href : Option String
  links : List RLink
  properties : List (String × Resource)
  actions : List (String × Resource)
  events : List (String × Resource)
  base : Option String
  securityDefinitions : Option SecScheme
  security : Option String

/-- Modelled from the spec: the `Property`/`Value` classes are not among the
provided sources.  A property wraps one mutable value plus metadata — the
JSON-schema-like constraints appear as the black-box validation predicate
`validates` (the spec's `validate(schema, input) → bool` partially applied to
the property's declared schema, read-only flag included), and the `@type` /
`title` metadata are kept for description rendering.  `hrefPfx` is the
href prefix propagated from the owning thing (`hrefPrefix` in the source). -/
structure Property where
  name : String
  value : JVal
  validates : JVal → Bool
  atType : Option AtType
  title : Option String
  hrefPfx : String

/-- Modelled from the spec: value mutation validates the candidate against
the property's declared constraints and rejects with an error when it does
not satisfy them; on success the new value is stored.  (The on-change
callback and subscriber notification do not touch model state.) -/
def Property.setValue (p : Property) (v : JVal) : Except Unit Property :=
  if p.validates v then Except.ok { p with value := v } else Except.error ()

/-- Modelled from the spec: a property description is the metadata together
with a `links` array holding the property's own href. -/
def Property.asPropertyDescription (p : Property) : Resource :=
  { links := some [⟨p.hrefPfx ++ "/properties/" ++ p.name, "property"⟩]
    atType := p.atType
    title := p.title }

/-- The lifecycle status of an action instance. -/
inductive ActionStatus where
  | created : ActionStatus
  | pending : ActionStatus
  | completed : ActionStatus
deriving DecidableEq

def ActionStatus.toStr : ActionStatus → String
  | .created => "created"
  | .pending => "pending"
  | .completed => "completed"

/-- Modelled from the spec: the `Action` base class is not among the provided
sources.  An instance has an id (supplied by the executable class), its
action name, the input payload, a lifecycle status, the href prefix of its
thing and a cancellation flag.  `timeRequested`/`timeCompleted` are real-time
data and stay outside the embedding. -/
structure ActionInst where
  id : String
  name : String
  input : JVal
  status : ActionStatus
  hrefPfx : String
  cancelled : Bool

/-- Modelled from the spec: starting an action transitions it to `pending`
(the asynchronous body itself is outside the embedding). -/
def ActionInst.start (a : ActionInst) : ActionInst :=
  { a with status := ActionStatus.pending }

/-- Modelled from the spec: cancelling stops the pending side effects. -/
def ActionInst.cancel (a : ActionInst) : ActionInst :=
  { a with cancelled := true }

/-- Modelled from the spec: an action description is a one-key object
`{[name]: {href, status, input}}`, merged by the POST handlers into their
response. -/
def ActionInst.asActionDescription (a : ActionInst) : List (String × JVal) :=
  [(a.name,
    JVal.obj
      [("href", JVal.str (a.hrefPfx ++ "/actions/" ++ a.name ++ "/" ++ a.id)),
       ("status", JVal.str a.status.toStr),
       ("input", a.input)])]

/-- One entry of the available-actions catalog: the optional input schema from
the metadata (already composed with the black-box validator), the id the
executable class will give the next instance, and the metadata title kept for
rendering. -/
structure AvailableAction where
  inputSchema : Option (JVal → Bool)
  newId : String
  title : Option String

/-- `true` when the catalog metadata declares no input schema or the declared
schema validates `v` (the `ajv.validate` call of `performAction`). -/
def schemaOk (aa : AvailableAction) (v : JVal) : Bool :=
  match aa.inputSchema with
  | some sch => sch v
  | none => true

/-- One entry of the available-events catalog: metadata plus the per-event
subscriber set. -/
structure AvailableEvent where
  descr : Option String
  subscribers : List Subscriber

/-- Modelled from the spec: an emitted event record `{name, data}` (the
timestamp is real-time data and stays outside the embedding). -/
structure EventRec where
  name : String
  data : JVal

/-- Modelled from the spec: an event description is the one-key object
`{[name]: {data}}`. -/
def EventRec.asEventDescription (e : EventRec) : List (String × JVal) :=
  [(e.name, JVal.obj [("data", e.data)])]

/-- The Thing entity of the source: identity and metadata, the ordered
property map, the available-actions catalog with its per-name in-flight
instance lists, the available-events catalog, the append-only event log, the
thing-wide subscriber set, the href prefix and the optional UI href. -/
structure Thing where
  id : String
  title : String
  context : String
  type : List String
  description : String
  properties : List Property
  availableActions : List (String × AvailableAction)
  availableEvents : List (String × AvailableEvent)
  actions : List (String × List ActionInst)
  events : List EventRec
  subscribers : List Subscriber
  hrefPfx : String
  uiHref : Option String

/-- The `Thing` constructor: empty catalogs, empty log, empty prefix. -/
def Thing.make (id title : String) (type : List String) (descr : String) :
    Thing :=
  { id := id
    title := title
    context := "https://iot.mozilla.org/schemas"
    type := type
    description := descr
    properties := []
    availableActions := []
    availableEvents := []
    actions := []
    events := []
    subscribers := []
    hrefPfx := ""
    uiHref := none }

/-- `Thing.getHref`: the href prefix when truthy (non-empty), else `/`. -/
def Thing.getHref (t : Thing) : String :=
  if t.hrefPfx ≠ "" then t.hrefPfx else "/"

/-- First property with the given name (`Thing.findProperty`). -/
def findPropIn : List Property → String → Option Property
  | [], _ => none
  | p :: ps, n => if p.name = n then some p else findPropIn ps n

/-- `Thing.findProperty`: the property if present, else null. -/
def Thing.findProperty (t : Thing) (propertyName : String) : Option Property :=
  findPropIn t.properties propertyName

/-- `Thing.getProperty`: the current value if the property exists, else the
JavaScript `null`. -/
def Thing.getProperty (t : Thing) (propertyName : String) : JVal :=
  match t.findProperty propertyName with
  | some p => p.value
  | none => JVal.null

/-- `Thing.getProperties`: the name → value mapping over all properties. -/
def Thing.getProperties (t : Thing) : List (String × JVal) :=
  t.properties.map (fun p => (p.name, p.value))

/-- `Thing.hasProperty`. -/
def Thing.hasProperty (t : Thing) (propertyName : String) : Bool :=
  t.properties.any (fun p => p.name == propertyName)

/-- `Thing.setProperty`: silently a no-op when the name is unknown; otherwise
delegates to the property's value mutation, whose rejection (a thrown
validation error in the source) propagates as the `error` result while the
thing is left unchanged. -/
def Thing.setProperty (t : Thing) (propertyName : String) (value : JVal) :
    Except Unit Thing :=
  match t.findProperty propertyName with
  | none => Except.ok t
  | some p =>
    match p.setValue value with
    | Except.error e => Except.error e
    | Except.ok p2 =>
      Except.ok { t with
        properties :=
          t.properties.map (fun q => if q.name = propertyName then p2 else q) }

/-- `Thing.getAction`: the live instance with the given name and id, if any. -/
def Thing.getAction (t : Thing) (actionName actionId : String) :
    Option ActionInst :=
  match alookup t.actions actionName with
  | none => none
  | some instances => instances.find? (fun a => a.id == actionId)

/-- `Thing.performAction`: coerces a falsy input to `null`, returns nothing
when the name is not in the catalog or the declared input schema (when
present) rejects the coerced input; otherwise constructs an instance in
`created` state with the thing's href prefix, appends it to the in-flight
list for the name and returns it.  (The subscriber notification does not
touch model state.) -/
def Thing.performAction (t : Thing) (actionName : String) (input : JVal) :
    Option (ActionInst × Thing) :=
  let input2 := jsOrNull input
  match alookup t.availableActions actionName with
  | none => none
  | some actionType =>
    if schemaOk actionType input2 then
      let a : ActionInst :=
        { id := actionType.newId
          name := actionName
          input := input2
          status := ActionStatus.created
          hrefPfx := t.hrefPfx
          cancelled := false }
      some (a, { t with
        actions := alupdate t.actions actionName (fun l => l ++ [a]) })
    else none

/-- Remove the first instance with the given id (the `splice` loop of
`Thing.removeAction`). -/
def removeFirstById : List ActionInst → String → List ActionInst
  | [], _ => []
  | a :: rest, actionId =>
    if a.id = actionId then rest else a :: removeFirstById rest actionId

/-- `Thing.removeAction`: reports `false` leaving the thing unchanged when no
live instance matches; otherwise cancels the instance and removes it from the
in-flight list for the name. -/
def Thing.removeAction (t : Thing) (actionName actionId : String) :
    Bool × Thing :=
  match t.getAction actionName actionId with
  | none => (false, t)
  | some _ =>
    (true, { t with
      actions := alupdate t.actions actionName
        (fun l => removeFirstById l actionId) })

/-- The fan-out loop of the notify methods: every subscriber is attempted in
order and the (swallowed) outcome recorded; one failure never prevents the
remaining sends and nothing is raised to the caller. -/
def notifySubscribers (subs : List Subscriber) (msg : JVal) :
    List (Nat × Bool) :=
  subs.map (fun s => (s.sid, s.send msg))

/-- `Thing.eventNotify`: nothing when the event's name is not in the catalog;
otherwise the fan-out over that name's subscriber set (never the thing-wide
set). -/
def Thing.eventNotify (t : Thing) (e : EventRec) : List (Nat × Bool) :=
  match alookup t.availableEvents e.name with
  | none => []
  | some ae =>
    notifySubscribers ae.subscribers
      (JVal.obj
        [("messageType", JVal.str "event"),
         ("data", JVal.obj e.asEventDescription)])

/-- `Thing.addEvent`: appends to the event log unconditionally, then notifies
the event-name subscribers; the updated thing and the attempted sends. -/
def Thing.addEvent (t : Thing) (e : EventRec) : Thing × List (Nat × Bool) :=
  ({ t with events := t.events ++ [e] }, t.eventNotify e)

/-- Add or overwrite a string-keyed entry, JavaScript object-assignment
style: an existing key keeps its position, a fresh key is appended. -/
def objSet {α : Type} (l : List (String × α)) (k : String) (v : α) :
    List (String × α) :=
  if l.any (fun p => p.1 == k) then
    l.map (fun p => if p.1 = k then (p.1, v) else p)
  else l ++ [(k, v)]

/-- `Thing.addProperty`: propagates the href prefix, then stores the property
under its name. -/
def Thing.addProperty (t : Thing) (p : Property) : Thing :=
  let p2 := { p with hrefPfx := t.hrefPfx }
  { t with
    properties :=
      if t.properties.any (fun q => q.name == p2.name) then
        t.properties.map (fun q => if q.name = p2.name then p2 else q)
      else t.properties ++ [p2] }

/-- `Thing.addAvailableAction`: registers the catalog entry and creates the
empty in-flight list for the name. -/
def Thing.addAvailableAction (t : Thing) (name : String)
    (aa : AvailableAction) : Thing :=
  { t with
    availableActions := objSet t.availableActions name aa
    actions := objSet t.actions name [] }

/-- `Thing.addAvailableEvent`: registers the catalog entry with an empty
subscriber set. -/
def Thing.addAvailableEvent (t : Thing) (name : String)
    (descr : Option String) : Thing :=
  { t with
    availableEvents :=
      objSet t.availableEvents name { descr := descr, subscribers := [] } }

/-- `Thing.asThingDescription`: the top-level `links` list (self groups plus
an optional alternate UI link), the per-property descriptions, and one
resource per catalog action / event carrying its single link.  (The
`mediaType` annotation of the alternate link is not read by anything in
scope.) -/
def Thing.asThingDescription (t : Thing) : Description :=
  let baseLinks : List RLink :=
    [⟨t.hrefPfx ++ "/properties", "properties"⟩,
     ⟨t.hrefPfx ++ "/actions", "actions"⟩,
     ⟨t.hrefPfx ++ "/events", "events"⟩]
  { href := none
    links :=
      match t.uiHref with
      | some u => baseLinks ++ [⟨u, "alternate"⟩]
      | none => baseLinks
    properties := t.properties.map (fun p => (p.name, p.asPropertyDescription))
    actions := t.availableActions.map (fun p =>
      (p.1,
       { links := some [⟨t.hrefPfx ++ "/actions/" ++ p.1, "action"⟩]
         atType := none
         title := p.2.title }))
    events := t.availableEvents.map (fun p =>
      (p.1,
       { links := some [⟨t.hrefPfx ++ "/events/" ++ p.1, "event"⟩]
         atType := none
         title := none }))
    base := none
    securityDefinitions := none
    security := none }

/-- The request context a handler sees (`req.host` from the Uri-Host
option). -/
structure CoapRequest where
  host : String

/-- `helpers.getDescription`: the thing description, with `href` added only
when the thing's href is not the registry root, `base` as
`coap://<host><href>`, and the fixed no-security declaration. -/
def getDescription (req : CoapRequest) (t : Thing) : Description :=
  let d := t.asThingDescription
  let d := if t.getHref ≠ "/" then { d with href := some t.getHref } else d
  { d with
    base := some ("coap://" ++ req.host ++ t.getHref)
    securityDefinitions := some { scheme := "nosec" }
    security := some "nosec_sc" }

/-- A plain `<href>;rt="<rel>";ct=50` link-format entry. -/
def linkEntry (l : RLink) : String :=
  "<" ++ l.href ++ ">;rt=\"" ++ l.rel ++ "\";ct=50"

/-- The `rt` payload of a properties entry: the space-joined `@type` list, a
scalar `@type` unchanged, and the JavaScript stringification `undefined`
when no `@type` is declared. -/
def typesString (r : Resource) : String :=
  match r.atType with
  | some (AtType.list ss) => String.intercalate " " ss
  | some (AtType.scalar s) => s
  | none => "undefined"

/-- A properties entry:
`<href>;rt="<types>";ct=50;title="<title>"` (a missing title stringifies to
`undefined`, as in the source's template literal). -/
def propertyEntry (r : Resource) (l : RLink) : String :=
  "<" ++ l.href ++ ">;rt=\"" ++ typesString r ++ "\";ct=50;title=\""
    ++ (match r.title with | some s => s | none => "undefined") ++ "\""

/-- The `switch (rgKey)` of the encoder's resource loop. -/
def resourceCoreLink (rgKey : String) (r : Resource) (l : RLink) :
    Option String :=
  if rgKey = "properties" then some (propertyEntry r l)
  else if rgKey = "actions" then some (linkEntry l)
  else if rgKey = "events" then some (linkEntry l)
  else none

/-- The fixed iteration order of `helpers.getCoreLinkFormat`. -/
def resourceGroupKeys : List String :=
  ["href", "links", "properties", "actions", "events"]

/-- The resource group a key selects on a description, when it is one of the
three group keys. -/
def descGroup (d : Description) (key : String) :
    Option (List (String × Resource)) :=
  if key = "properties" then some d.properties
  else if key = "actions" then some d.actions
  else if key = "events" then some d.events
  else none

/-- The entries `helpers.getCoreLinkFormat` pushes for one resource-group
key: the bare `<href>` when the description has one, the top-level links as
plain entries, and for a group every link of every resource that carries a
`links` array, in declared order. -/
def coreEntriesFor (d : Description) (rgKey : String) : List String :=
  if rgKey = "href" then
    match d.href with
    | some h => ["<" ++ h ++ ">"]
    | none => []
  else if rgKey = "links" then
    d.links.map linkEntry
  else
    match descGroup d rgKey with
    | none => []
    | some rg =>
      rg.foldl (fun acc p =>
        match p.2.links with
        | none => acc
        | some ls =>
          acc ++ ls.map (fun l => (resourceCoreLink rgKey p.2 l).getD "undefined"))
        []

/-- `helpers.getCoreLinkFormat`: the comma-joined entries accumulated over
the fixed key order. -/
def getCoreLinkFormat (d : Description) : String :=
  joinComma
    (resourceGroupKeys.foldl (fun acc k => acc ++ coreEntriesFor d k) [])

/-- The encoder output as the specification words it: the description's own
href as a bare entry, then the top-level links, then the properties, actions
and events groups in that fixed order, one entry per link of every resource
carrying a `links` array, all joined with commas and never re-sorted. -/
def coreLinkFormatSpec (d : Description) : String :=
  joinComma
    ((match d.href with
      | some h => ["<" ++ h ++ ">"]
      | none => [])
     ++ d.links.map linkEntry
     ++ (d.properties.map (fun p =>
          match p.2.links with
          | none => []
          | some ls => ls.map (propertyEntry p.2))).flatten
     ++ (d.actions.map (fun p =>
          match p.2.links with
          | none => []
          | some ls => ls.map linkEntry)).flatten
     ++ (d.events.map (fun p =>
          match p.2.links with
          | none => []
          | some ls => ls.map linkEntry)).flatten)

/-- Modelled from the spec: the closed two-variant registry.  `SingleThing`
holds exactly one thing; `MultipleThings` an ordered sequence plus a group
name.  (The classes are not among the provided sources.) -/
inductive Things where
  | single (t : Thing) (name : String) : Things
  | multiple (ts : List Thing) (name : String) : Things

/-- Modelled from the spec: the uniform thing list of the registry. -/
def Things.getThings : Things → List Thing
  | .single t _ => [t]
  | .multiple ts _ => ts

/-- Modelled from the spec: lookup-by-index.  A single-thing registry ignores
the id and always resolves to its thing; a multi-thing registry parses the id
as an index into its sequence. -/
def Things.getThing : Things → Option String → Option Thing
  | .single t _, _ => some t
  | .multiple ts _, some idStr => idStr.toNat?.bind (fun i => ts.get? i)
  | .multiple _ _, none => none

/-- The five response-status signals of the binding (`res.statusCode` 201,
204, 400, 404, and the success default). -/
inductive Signal where
  | ok : Signal
  | created : Signal
  | noContent : Signal
  | badRequest : Signal
  | notFound : Signal
deriving DecidableEq

/-- What a handler invocation does: either it writes a response (signal,
optional JSON body) leaving the model in the given state, or an uncaught
exception escapes the handler (`raised`), also with the state at that
point. -/
inductive HandlerOutcome where
  | response (sig : Signal) (body : Option JVal) (t : Thing) : HandlerOutcome
  | raised (t : Thing) : HandlerOutcome

/-- `CoapPropertyHandler.put` after the target thing resolved.  `body?` is
the result of `helpers.getBody` — `none` when `JSON.parse` threw on a
malformed payload, which no handler catches.  A body not owning the path's
property name is a bad request; an unknown property is not found; a rejected
value is caught and answered as a bad request with the thing unchanged; on
success the new value is read back from the model. -/
def coapPropertyPut (t : Thing) (propertyName : String) (body? : Option JVal) :
    HandlerOutcome :=
  match body? with
  | none => HandlerOutcome.raised t
  | some body =>
    match jsHasOwn body propertyName with
    | none => HandlerOutcome.raised t
    | some false => HandlerOutcome.response Signal.badRequest none t
    | some true =>
      if t.hasProperty propertyName then
        match t.setProperty propertyName (jsGet body propertyName) with
        | Except.error _ => HandlerOutcome.response Signal.badRequest none t
        | Except.ok t2 =>
          HandlerOutcome.response Signal.ok
            (some (JVal.obj [(propertyName, t2.getProperty propertyName)])) t2
      else HandlerOutcome.response Signal.notFound none t

/-- The `input` a body entry supplies: `null` when the entry owns no `input`
key; a `TypeError` (`none`) when the entry is the JSON `null`, on which
`hasOwnProperty` cannot be called. -/
def entryInput : JVal → Option JVal
  | JVal.null => none
  | JVal.obj fields => some ((alookup fields "input").getD JVal.null)
  | _ => some JVal.null

/-- The total part of `entryInput`, used to state claims about non-`null`
entries. -/
def inputOf : JVal → JVal
  | JVal.obj fields => (alookup fields "input").getD JVal.null
  | _ => JVal.null

/-- Mark the live instance with the given id as started
(`action.start()` mutates the object already pushed to the in-flight
list). -/
def Thing.startAction (t : Thing) (actionName actionId : String) : Thing :=
  { t with
    actions := alupdate t.actions actionName
      (fun l => l.map (fun a => if a.id = actionId then a.start else a)) }

/-- One iteration of the `for (const actionName in body)` loop of the actions
POST handlers: a `TypeError` aborts the loop carrying the state reached so
far; a failed `performAction` is silently skipped; a success merges the
pre-start description into the response and starts the instance. -/
def actionsPostStep (st : Except Thing (Thing × List (String × JVal)))
    (e : String × JVal) : Except Thing (Thing × List (String × JVal)) :=
  match st with
  | Except.error t => Except.error t
  | Except.ok (t, resp) =>
    match entryInput e.2 with
    | none => Except.error t
    | some input =>
      match t.performAction e.1 input with
      | none => Except.ok (t, resp)
      | some (a, t2) =>
        Except.ok (t2.startAction e.1 a.id, objAssign resp a.asActionDescription)

/-- `CoapActionsHandler.post` after the target thing resolved: a malformed
payload raises out of the handler; otherwise every body entry is attempted in
order and the handler answers with the created signal and the merged
descriptions. -/
def coapActionsPost (t : Thing) (body? : Option JVal) : HandlerOutcome :=
  match body? with
  | none => HandlerOutcome.raised t
  | some body =>
    match (jsForIn body).foldl actionsPostStep (Except.ok (t, [])) with
    | Except.error t2 => HandlerOutcome.raised t2
    | Except.ok (t2, resp) =>
      HandlerOutcome.response Signal.created (some (JVal.obj resp)) t2

/-- `CoapActionIDHandler.delete` after the target thing resolved: no content
on a successful removal, not found otherwise. -/
def coapActionIdDelete (t : Thing) (actionName actionId : String) :
    HandlerOutcome :=
  let r := t.removeAction actionName actionId
  if r.1 then HandlerOutcome.response Signal.noContent none r.2
  else HandlerOutcome.response Signal.notFound none r.2

/-- `CoapCoreHandler.get`: `none` when the thing does not resolve, otherwise
the thing's link-format encoding with the two trailer entries appended by
string concatenation. -/
def coapCoreGet (req : CoapRequest) (things : Things)
    (thingId : Option String) : Option String :=
  match things.getThing thingId with
  | none => none
  | some t =>
    some (getCoreLinkFormat (getDescription req t) ++ ",</>,</.well-known/core>")

/-- `CoapCoresHandler.get`: the per-thing encodings of all registry things in
order, then the two trailer entries, comma-joined. -/
def coapCoresGet (req : CoapRequest) (things : Things) : String :=
  joinComma
    ((things.getThings.map (fun t => getCoreLinkFormat (getDescription req t)))
     ++ ["</>", "</.well-known/core>"])

/-! Concrete fixtures, mirroring the `Lamp` thing of the repository's test
server, used to instantiate witnesses and counterexamples. -/

/-- `ajv.validate({type: boolean}, ·)`: one concrete verdict table of the
black-box validator, for the lamp's `on` property. -/
def isBoolSchema : JVal → Bool
  | JVal.bool _ => true
  | _ => false

/-- `ajv.validate` for the `SwitchOffTimer` input schema (an object with a
required integer `duration ≥ 1`), as a concrete verdict table of the
black-box validator. -/
def durationSchema : JVal → Bool
  | JVal.obj fields =>
    match alookup fields "duration" with
    | some (JVal.num n) => decide (1 ≤ n)
    | _ => false
  | _ => false

/-- The lamp's `on` property. -/
def onPropLamp : Property :=
  { name := "on"
    value := JVal.bool true
    validates := isBoolSchema
    atType := some (AtType.scalar "OnOffProperty")
    title := some "On/Off"
    hrefPfx := "" }

/-- The `Lamp` thing of the repository's test server, built through the same
registration calls the source uses. -/
def lampThing : Thing :=
  ((((Thing.make "Lamp" "Lamp" ["OnOffSwitch"] "Lamp").addProperty
      onPropLamp).addAvailableAction "SwitchOffTimer"
      { inputSchema := some durationSchema
        newId := "0"
        title := some "Switch Off Timer" }).addAvailableEvent "overheated"
      (some "The lamp has exceeded its safe operating temperature"))

/-- The lamp after `setProperty("on", false)` succeeded. -/
def lampOn2 : Thing :=
  { lampThing with properties := [{ onPropLamp with value := JVal.bool false }] }

/-- A thing whose `test` action accepts exactly the booleans — the registered
schema under which the input `false` validates. -/
def boolActionThing : Thing :=
  (Thing.make "T" "T" [] "").addAvailableAction "test"
    { inputSchema := some isBoolSchema, newId := "0", title := none }

/-- A live instance of `boolActionThing`'s `test` action. -/
def instA : ActionInst :=
  { id := "5"
    name := "test"
    input := JVal.null
    status := ActionStatus.pending
    hrefPfx := ""
    cancelled := false }

/-- `boolActionThing` with `instA` in flight. -/
def runningThing : Thing :=
  { boolActionThing with actions := [("test", [instA])] }

/-- A boolean property named `0`, reachable by a PUT whose body is a
one-element array (which owns the index key `0`). -/
def idxProp : Property :=
  { name := "0"
    value := JVal.bool true
    validates := isBoolSchema
    atType := none
    title := none
    hrefPfx := "" }

/-- A thing holding the index-named property `0`. -/
def idxPropThing : Thing :=
  (Thing.make "I" "I" [] "").addProperty idxProp

/-- `idxPropThing` after `setProperty("0", false)` succeeded. -/
def idxPropOn2 : Thing :=
  { idxPropThing with properties := [{ idxProp with value := JVal.bool false }] }

/-- A property whose stored value is the JSON `null`. -/
def bProp : Property :=
  { name := "brightness"
    value := JVal.null
    validates := fun _ => true
    atType := none
    title := none
    hrefPfx := "" }

/-- A thing holding a `brightness` property whose value is `null`. -/
def nullValThing : Thing :=
  (Thing.make "N" "N" [] "").addProperty bProp

/-! General lemmas about the list-level helpers. -/

theorem strAppend_assoc (a b c : String) : a ++ b ++ c = a ++ (b ++ c) := by
  rcases a with ⟨la⟩
  rcases b with ⟨lb⟩
  rcases c with ⟨lc⟩
  show String.mk (la ++ lb ++ lc) = String.mk (la ++ (lb ++ lc))
  rw [List.append_assoc]

theorem alupdate_cons {α : Type} (p : String × α) (l : List (String × α))
    (k : String) (f : α → α) :
    alupdate (p :: l) k f
      = (if p.1 = k then (p.1, f p.2) else p) :: alupdate l k f := rfl

theorem alookup_cons {α : Type} (p : String × α) (l : List (String × α))
    (key : String) :
    alookup (p :: l) key = if p.1 = key then some p.2 else alookup l key := rfl

theorem alookup_alupdate_self {α : Type} (l : List (String × α)) (k : String)
    (f : α → α) : alookup (alupdate l k f) k = (alookup l k).map f := by
  induction l with
  | nil => rfl
  | cons p rest ih =>
    by_cases h : p.1 = k
    · rw [alupdate_cons, if_pos h, alookup_cons, alookup_cons, if_pos h, if_pos h]
      rfl
    · rw [alupdate_cons, if_neg h, alookup_cons, alookup_cons, if_neg h, if_neg h,
        ih]

theorem alookup_alupdate_ne {α : Type} (l : List (String × α)) (k k2 : String)
    (f : α → α) (h : k2 ≠ k) :
    alookup (alupdate l k f) k2 = alookup l k2 := by
  induction l with
  | nil => rfl
  | cons p rest ih =>
    by_cases hk : p.1 = k
    · have hk2 : p.1 ≠ k2 := by rw [hk]; exact Ne.symm h
      rw [alupdate_cons, if_pos hk, alookup_cons, alookup_cons, if_neg hk2, if_neg hk2, ih]
    · rw [alupdate_cons, if_neg hk, alookup_cons, alookup_cons, ih]

theorem findPropIn_name (ps : List Property) (n : String) (p : Property)
    (h : findPropIn ps n = some p) : p.name = n := by
  induction ps with
  | nil => simp [findPropIn] at h
  | cons q qs ih =>
    by_cases hq : q.name = n
    · simp [findPropIn, hq] at h
      subst h; exact hq
    · simp [findPropIn, hq] at h
      exact ih h

theorem findPropIn_map_replace (ps : List Property) (n : String) (p2 : Property)
    (hp2 : p2.name = n) (h : (findPropIn ps n).isSome = true) :
    findPropIn (ps.map (fun q => if q.name = n then p2 else q)) n = some p2 := by
  induction ps with
  | nil => simp [findPropIn] at h
  | cons q qs ih =>
    by_cases hq : q.name = n
    · simp [findPropIn, hq, hp2]
    · simp [findPropIn, hq] at h ⊢
      exact ih h

theorem findPropIn_cons (q : Property) (qs : List Property) (n : String) :
    findPropIn (q :: qs) n = if q.name = n then some q else findPropIn qs n := rfl

theorem findPropIn_map_replace_ne (ps : List Property) (n n2 : String)
    (p2 : Property) (hp2 : p2.name = n) (hne : n2 ≠ n) :
    findPropIn (ps.map (fun q => if q.name = n then p2 else q)) n2
      = findPropIn ps n2 := by
  induction ps with
  | nil => rfl
  | cons q qs ih =>
    rw [List.map_cons]
    by_cases hq : q.name = n
    · have h1 : p2.name ≠ n2 := by rw [hp2]; exact Ne.symm hne
      have h2 : q.name ≠ n2 := by rw [hq]; exact Ne.symm hne
      rw [if_pos hq, findPropIn_cons, findPropIn_cons, if_neg h1, if_neg h2, ih]
    · rw [if_neg hq, findPropIn_cons, findPropIn_cons, ih]

theorem foldl_links_eq_flatten (g : Resource → RLink → String)
    (rg : List (String × Resource)) (acc : List String) :
    rg.foldl (fun acc2 p =>
      match p.2.links with
      | none => acc2
      | some ls => acc2 ++ ls.map (g p.2)) acc
    = acc ++ (rg.map (fun p =>
        match p.2.links with
        | none => []
        | some ls => ls.map (g p.2))).flatten := by
  induction rg generalizing acc with
  | nil => simp
  | cons p rest ih =>
    cases hl : p.2.links <;> simp [List.foldl_cons, hl, ih, List.append_assoc]

theorem joinComma_append (xs ys : List String) (hxs : xs ≠ []) (hys : ys ≠ []) :
    joinComma (xs ++ ys) = joinComma xs ++ "," ++ joinComma ys := by
  induction xs with
  | nil => exact absurd rfl hxs
  | cons x xs ih =>
    cases xs with
    | nil =>
      cases ys with
      | nil => exact absurd rfl hys
      | cons y ys2 => rfl
    | cons x2 xs2 =>
      have h2 : joinComma ((x2 :: xs2) ++ ys) =
          joinComma (x2 :: xs2) ++ "," ++ joinComma ys := ih (by simp)
      show x ++ "," ++ joinComma ((x2 :: xs2) ++ ys)
        = x ++ "," ++ joinComma (x2 :: xs2) ++ "," ++ joinComma ys
      rw [h2, strAppend_assoc (x ++ ",") (joinComma (x2 :: xs2)) ","]
      rw [strAppend_assoc (x ++ ",") (joinComma (x2 :: xs2) ++ ",") (joinComma ys)]

theorem entryInput_of_ne_null (v : JVal) (h : v ≠ JVal.null) :
    entryInput v = some (inputOf v) := by
  cases v <;> simp [entryInput, inputOf] at *

theorem actionsPost_foldl_noop (t : Thing) (resp : List (String × JVal))
    (entries : List (String × JVal))
    (h : ∀ e ∈ entries,
      e.2 ≠ JVal.null ∧ t.performAction e.1 (inputOf e.2) = none) :
    entries.foldl actionsPostStep (Except.ok (t, resp)) = Except.ok (t, resp) := by
  induction entries with
  | nil => rfl
  | cons e rest ih =>
    have he := h e (by simp)
    have hstep : actionsPostStep (Except.ok (t, resp)) e = Except.ok (t, resp) := by
      simp [actionsPostStep, entryInput_of_ne_null e.2 he.1, he.2]
    rw [List.foldl_cons, hstep]
    exact ih (fun x hx => h x (List.mem_cons_of_mem e hx))

theorem coreEntriesFor_properties (d : Description) :
    coreEntriesFor d "properties"
      = (d.properties.map (fun p =>
          match p.2.links with
          | none => []
          | some ls => ls.map (propertyEntry p.2))).flatten := by
  have h := foldl_links_eq_flatten
    (fun r l => (resourceCoreLink "properties" r l).getD "undefined")
    d.properties []
  simp only [List.nil_append] at h
  exact h

theorem coreEntriesFor_actions (d : Description) :
    coreEntriesFor d "actions"
      = (d.actions.map (fun p =>
          match p.2.links with
          | none => []
          | some ls => ls.map linkEntry)).flatten := by
  have h := foldl_links_eq_flatten
    (fun r l => (resourceCoreLink "actions" r l).getD "undefined")
    d.actions []
  simp only [List.nil_append] at h
  exact h

theorem coreEntriesFor_events (d : Description) :
    coreEntriesFor d "events"
      = (d.events.map (fun p =>
          match p.2.links with
          | none => []
          | some ls => ls.map linkEntry)).flatten := by
  have h := foldl_links_eq_flatten
    (fun r l => (resourceCoreLink "events" r l).getD "undefined")
    d.events []
  simp only [List.nil_append] at h
  exact h

/-! The claim theorems. -/

/-- C2: for every Thing with a registered property and every value, after
`setProperty(name, v)` the read-back `getProperty(name)` yields `v` when the
value satisfies the property's declared constraints; a rejected value makes
`setProperty` signal the error with the thing unchanged (so the property
keeps its prior value), and an unknown name makes `setProperty` a silent
no-op. -/
theorem claim_C2 (t : Thing) (name : String) (v : JVal) :
    (t.findProperty name = none → t.setProperty name v = Except.ok t) ∧
    (∀ p, t.findProperty name = some p →
      (p.validates v = true →
        ∃ t2, t.setProperty name v = Except.ok t2 ∧ t2.getProperty name = v) ∧
      (p.validates v = false → t.setProperty name v = Except.error ())) := by
  constructor
  · intro h
    simp [Thing.setProperty, h]
  · intro p hp
    constructor
    · intro hv
      refine ⟨{ t with properties := (t.properties.map
          (fun q => if q.name = name then { p with value := v } else q)) }, ?_, ?_⟩
      · simp [Thing.setProperty, hp, Property.setValue, hv]
      · have hn : ({ p with value := v } : Property).name = name :=
          findPropIn_name t.properties name p hp
        have hs : (findPropIn t.properties name).isSome = true := by
          rw [show findPropIn t.properties name = t.findProperty name from rfl, hp]
          rfl
        have := findPropIn_map_replace t.properties name { p with value := v } hn hs
        simp [Thing.getProperty, Thing.findProperty, this]
    · intro hv
      simp [Thing.setProperty, hp, Property.setValue, hv]

/-- C2 witness: on the lamp fixture, writing `false` to the boolean `on`
property succeeds and reads back as `false`. -/
theorem claim_C2_witness :
    ∃ t2, lampThing.setProperty "on" (JVal.bool false) = Except.ok t2 ∧
      t2.getProperty "on" = JVal.bool false := by
  have h := ((claim_C2 lampThing "on" (JVal.bool false)).2 onPropLamp rfl).1 rfl
  exact h

/-- C10: `getProperty` on an unregistered name answers `null` rather than
raising; `getProperties` lists exactly the registered names; and a reader
cannot distinguish a missing property from one whose stored value is `null`
through `getProperty` alone. -/
theorem claim_C10 (t t2 : Thing) (name : String) :
    (t.findProperty name = none → t.getProperty name = JVal.null) ∧
    (t.getProperties.map Prod.fst = t.properties.map Property.name) ∧
    (t.findProperty name = none →
      ∀ p, t2.findProperty name = some p → p.value = JVal.null →
        t.getProperty name = t2.getProperty name) := by
  refine ⟨?_, ?_, ?_⟩
  · intro h
    simp [Thing.getProperty, h]
  · show (t.properties.map (fun p => (p.name, p.value))).map Prod.fst = _
    rw [List.map_map]
    rfl
  · intro h p hp hval
    simp [Thing.getProperty, h, hp, hval]

/-- C10 witness: the lamp has no `brightness` property and answers `null`
for it, indistinguishable from the fixture thing whose `brightness` property
stores `null`. -/
theorem claim_C10_witness :
    lampThing.getProperty "brightness" = JVal.null ∧
    lampThing.getProperty "brightness" = nullValThing.getProperty "brightness" := by
  have h := claim_C10 lampThing nullValThing "brightness"
  exact ⟨h.1 rfl, h.2.2 rfl bProp rfl rfl⟩

/-- C7: a rendered description carries an `href` field exactly when the
thing's href is not the registry root `/` (and then equal to that href), its
`base` is the scheme, `://`, the request host and the thing's href
concatenated, and it always carries the fixed no-security declaration. -/
theorem claim_C7 (req : CoapRequest) (t : Thing) :
    (getDescription req t).href
      = (if t.getHref = "/" then none else some t.getHref) ∧
    (getDescription req t).base = some ("coap://" ++ req.host ++ t.getHref) ∧
    (getDescription req t).securityDefinitions
      = some { scheme := "nosec" } ∧
    (getDescription req t).security = some "nosec_sc" := by
  by_cases h : t.getHref = "/" <;>
    simp [getDescription, Thing.asThingDescription, h]

/-- C9: `addEvent` appends the event to the log unconditionally and leaves
every other part of the model alone; a send attempt is made for exactly the
subscribers registered for the event's name (all of them, whatever each
send's outcome, so one failure never blocks the rest, and the total return
models that nothing is raised), and the thing-wide subscriber set is never
consulted. -/
theorem claim_C9 (t : Thing) (e : EventRec) (subs : List Subscriber) :
    ((t.addEvent e).1.events = t.events ++ [e]) ∧
    ((t.addEvent e).1.properties = t.properties ∧
      (t.addEvent e).1.actions = t.actions ∧
      (t.addEvent e).1.subscribers = t.subscribers) ∧
    ((t.addEvent e).2.map Prod.fst
      = (match alookup t.availableEvents e.name with
         | some ae => ae.subscribers.map Subscriber.sid
         | none => [])) ∧
    (({ t with subscribers := subs } : Thing).addEvent e).2 = (t.addEvent e).2 := by
  refine ⟨rfl, ⟨rfl, rfl, rfl⟩, ?_, rfl⟩
  show (t.eventNotify e).map Prod.fst = _
  unfold Thing.eventNotify
  cases alookup t.availableEvents e.name with
  | none => rfl
  | some ae =>
    show (notifySubscribers ae.subscribers _).map Prod.fst = _
    unfold notifySubscribers
    rw [List.map_map]
    rfl

/-- C8: `removeAction` on a name/id pair matching no live instance reports
`false` with every in-flight list unchanged and the DELETE handler answers
not-found; on a match the instance is removed from its list (after being
cancelled) and the handler answers no-content.  Totality of the model
functions reflects that neither path throws. -/
theorem claim_C8 (t : Thing) (actionName actionId : String) :
    (t.getAction actionName actionId = none →
      t.removeAction actionName actionId = (false, t) ∧
      coapActionIdDelete t actionName actionId
        = HandlerOutcome.response Signal.notFound none t) ∧
    (∀ a, t.getAction actionName actionId = some a →
      t.removeAction actionName actionId
        = (true, { t with actions := (alupdate t.actions actionName
            (fun l => removeFirstById l actionId)) }) ∧
      coapActionIdDelete t actionName actionId
        = HandlerOutcome.response Signal.noContent none
            { t with actions := (alupdate t.actions actionName
                (fun l => removeFirstById l actionId)) }) := by
  constructor
  · intro h
    refine ⟨?_, ?_⟩
    · simp [Thing.removeAction, h]
    · simp [coapActionIdDelete, Thing.removeAction, h]
  · intro a ha
    refine ⟨?_, ?_⟩
    · simp [Thing.removeAction, ha]
    · simp [coapActionIdDelete, Thing.removeAction, ha]

/-- C8 witness: deleting the absent instance `7` of the lamp's registered
action answers not-found with the lamp unchanged, while deleting the live
instance `5` of the running fixture succeeds. -/
theorem claim_C8_witness :
    (coapActionIdDelete lampThing "SwitchOffTimer" "7"
      = HandlerOutcome.response Signal.notFound none lampThing) ∧
    (runningThing.removeAction "test" "5").1 = true := by
  refine ⟨((claim_C8 lampThing "SwitchOffTimer" "7").1 rfl).2, ?_⟩
  have h := ((claim_C8 runningThing "test" "5").2 instA rfl).1
  rw [h]

/-- C3: for a property PUT whose thing resolved — a body not owning the
path's property name is answered bad-request with no mutation; a body owning
it for a thing without that property is answered not-found; a rejected value
is answered bad-request with the thing unchanged; otherwise the response
body is the new value read back from the model. -/
theorem claim_C3 (t : Thing) (name : String) (body : JVal) :
    (jsHasOwn body name = some false →
      coapPropertyPut t name (some body)
        = HandlerOutcome.response Signal.badRequest none t) ∧
    (jsHasOwn body name = some true → t.hasProperty name = false →
      coapPropertyPut t name (some body)
        = HandlerOutcome.response Signal.notFound none t) ∧
    (jsHasOwn body name = some true → t.hasProperty name = true →
      (t.setProperty name (jsGet body name) = Except.error () →
        coapPropertyPut t name (some body)
          = HandlerOutcome.response Signal.badRequest none t) ∧
      (∀ t2, t.setProperty name (jsGet body name) = Except.ok t2 →
        coapPropertyPut t name (some body)
          = HandlerOutcome.response Signal.ok
              (some (JVal.obj [(name, t2.getProperty name)])) t2)) := by
  refine ⟨?_, ?_, ?_⟩
  · intro h
    simp [coapPropertyPut, h]
  · intro h1 h2
    simp [coapPropertyPut, h1, h2]
  · intro h1 h2
    constructor
    · intro hs
      simp [coapPropertyPut, h1, h2, hs]
    · intro t2 hs
      simp [coapPropertyPut, h1, h2, hs]

/-- C3 witness: PUTting `{on: false}` on the lamp succeeds and echoes the
stored value; a PUT whose body is the array `[false]` against the property
named `0` likewise reaches `setProperty` (the array owns the index key) and
succeeds. -/
theorem claim_C3_witness :
    (coapPropertyPut lampThing "on" (some (JVal.obj [("on", JVal.bool false)]))
      = HandlerOutcome.response Signal.ok
          (some (JVal.obj [("on", JVal.bool false)])) lampOn2) ∧
    (coapPropertyPut idxPropThing "0" (some (JVal.arr [JVal.bool false]))
      = HandlerOutcome.response Signal.ok
          (some (JVal.obj [("0", JVal.bool false)])) idxPropOn2) := by
  constructor
  · exact ((claim_C3 lampThing "on"
      (JVal.obj [("on", JVal.bool false)])).2.2 rfl rfl).2 lampOn2 rfl
  · exact ((claim_C3 idxPropThing "0"
      (JVal.arr [JVal.bool false])).2.2 rfl rfl).2 idxPropOn2 rfl

/-- C1 counterexample: the lamp-style fixture registers a `test` action whose
declared input schema validates the boolean `false`, yet `performAction`
returns nothing for that input — the source coerces every falsy input to
`null` (`input = input || null`) before validating, so the claimed
equivalence with `validate(schema, input)` fails. -/
theorem claim_C1_counterexample :
    alookup boolActionThing.availableActions "test"
      = some { inputSchema := some isBoolSchema, newId := "0", title := none } ∧
    isBoolSchema (JVal.bool false) = true ∧
    boolActionThing.performAction "test" (JVal.bool false) = none :=
  ⟨rfl, rfl, rfl⟩

/-- C1 (amended): `performAction(name, input)` returns an instance exactly
when `name` is in the catalog and the declared input schema — when one is
present — validates the coerced input `input || null`; on success the
instance has status `created` and is appended to the in-flight list for
`name`, with every other in-flight list, the properties and the event log
untouched.  (The well-formedness hypothesis records that registration always
creates the in-flight list the source pushes into.) -/
theorem claim_C1 (t : Thing) (name : String) (input : JVal)
    (hwf : ∀ aa, alookup t.availableActions name = some aa →
      (alookup t.actions name).isSome = true) :
    ((t.performAction name input).isSome = true ↔
      ∃ aa, alookup t.availableActions name = some aa ∧
        schemaOk aa (jsOrNull input) = true) ∧
    (∀ a t2, t.performAction name input = some (a, t2) →
      a.status = ActionStatus.created ∧
      (∃ l, alookup t.actions name = some l ∧
        alookup t2.actions name = some (l ++ [a])) ∧
      (∀ n2, n2 ≠ name → alookup t2.actions n2 = alookup t.actions n2) ∧
      t2.properties = t.properties ∧ t2.events = t.events) := by
  cases halo : alookup t.availableActions name with
  | none =>
    constructor
    · simp [Thing.performAction, halo]
    · intro a t2 h
      simp [Thing.performAction, halo] at h
  | some aa =>
    cases hok : schemaOk aa (jsOrNull input) with
    | false =>
      constructor
      · simp [Thing.performAction, halo, hok]
      · intro a t2 h
        simp [Thing.performAction, halo, hok] at h
    | true =>
      constructor
      · simp [Thing.performAction, halo, hok]
      · intro a t2 h
        simp [Thing.performAction, halo, hok] at h
        obtain ⟨ha, ht⟩ := h
        obtain ⟨l, hl⟩ := Option.isSome_iff_exists.mp (hwf aa halo)
        subst ha
        refine ⟨rfl, ⟨l, hl, ?_⟩, ?_, ?_, ?_⟩
        · rw [← ht, alookup_alupdate_self, hl]
          rfl
        · intro n2 hn2
          rw [← ht, alookup_alupdate_ne _ _ _ _ hn2]
        · rw [← ht]
        · rw [← ht]

/-- C1 witness: posting `SwitchOffTimer` with a valid `{duration: 5}` input
on the lamp yields an instance in `created` state. -/
theorem claim_C1_witness :
    ∃ a t2, lampThing.performAction "SwitchOffTimer"
        (JVal.obj [("duration", JVal.num 5)]) = some (a, t2) ∧
      a.status = ActionStatus.created := by
  cases hpa : lampThing.performAction "SwitchOffTimer"
      (JVal.obj [("duration", JVal.num 5)]) with
  | none =>
    have h := ((claim_C1 lampThing "SwitchOffTimer"
      (JVal.obj [("duration", JVal.num 5)]) (fun _ _ => rfl)).1).mpr
      ⟨{ inputSchema := some durationSchema, newId := "0",
         title := some "Switch Off Timer" }, rfl, rfl⟩
    rw [hpa] at h
    exact absurd h (by simp)
  | some pair =>
    obtain ⟨a, t2⟩ := pair
    exact ⟨a, t2, rfl,
      (((claim_C1 lampThing "SwitchOffTimer"
        (JVal.obj [("duration", JVal.num 5)]) (fun _ _ => rfl)).2 a t2 hpa)).1⟩

/-- C4 counterexample: a malformed request payload (the `JSON.parse` of
`helpers.getBody` throwing) is not caught by the property PUT handler — the
exception escapes the handler call, refuting the claim that every validation
failure stays local to the handler that detected it. -/
theorem claim_C4_counterexample :
    coapPropertyPut lampThing "on" none = HandlerOutcome.raised lampThing :=
  rfl

/-- C4 (amended): the two validation failures of the specification's own
taxonomy stay local and mutation-free — a property PUT whose value the model
rejects is answered bad-request with the thing unchanged, and an actions
POST all of whose entries are unknown or rejected is answered with the
created signal, an empty merge and the thing unchanged.  A malformed request
payload, by contrast, raises out of the handler (see the counterexample). -/
theorem claim_C4 (t : Thing) (name : String) (body bodyA : JVal) :
    (jsHasOwn body name = some true → t.hasProperty name = true →
      t.setProperty name (jsGet body name) = Except.error () →
      coapPropertyPut t name (some body)
        = HandlerOutcome.response Signal.badRequest none t) ∧
    ((∀ e ∈ jsForIn bodyA,
        e.2 ≠ JVal.null ∧ t.performAction e.1 (inputOf e.2) = none) →
      coapActionsPost t (some bodyA)
        = HandlerOutcome.response Signal.created (some (JVal.obj [])) t) := by
  constructor
  · intro h1 h2 hs
    simp [coapPropertyPut, h1, h2, hs]
  · intro h
    simp [coapActionsPost, actionsPost_foldl_noop t [] (jsForIn bodyA) h]

/-- C4 witness: a PUT of the non-boolean `{on: "high"}` is answered
bad-request leaving the lamp unchanged; so is a PUT whose body is the array
`["high"]` against the property named `0` (the array owns the index key, and
the rejected element value stays local); and a POST naming only the
unregistered action `nope` is answered with an empty merge and the lamp
unchanged. -/
theorem claim_C4_witness :
    (coapPropertyPut lampThing "on" (some (JVal.obj [("on", JVal.str "high")]))
      = HandlerOutcome.response Signal.badRequest none lampThing) ∧
    (coapPropertyPut idxPropThing "0" (some (JVal.arr [JVal.str "high"]))
      = HandlerOutcome.response Signal.badRequest none idxPropThing) ∧
    (coapActionsPost lampThing (some (JVal.obj [("nope", JVal.obj [])]))
      = HandlerOutcome.response Signal.created (some (JVal.obj [])) lampThing) := by
  have h := claim_C4 lampThing "on" (JVal.obj [("on", JVal.str "high")])
    (JVal.obj [("nope", JVal.obj [])])
  have h2 := claim_C4 idxPropThing "0" (JVal.arr [JVal.str "high"])
    (JVal.obj [])
  refine ⟨h.1 rfl rfl rfl, h2.1 rfl rfl rfl, h.2 ?_⟩
  intro e he
  rw [show jsForIn (JVal.obj [("nope", JVal.obj [])])
      = [("nope", JVal.obj [])] from rfl] at he
  rw [List.mem_singleton.mp he]
  exact ⟨fun hx => JVal.noConfusion hx, rfl⟩

/-- C5: the link-format encoder emits, in this exact order: the
description's own href (when present) as a bare entry, the top-level links
as plain entries, then the properties, actions and events groups in that
fixed order with one entry per link of every resource carrying a `links`
array — properties entries carrying the space-joined `@type` and the title,
actions and events entries the link relation — all comma-joined in declared
order, never re-sorted. -/
theorem claim_C5 (d : Description) : getCoreLinkFormat d = coreLinkFormatSpec d := by
  unfold getCoreLinkFormat coreLinkFormatSpec
  congr 1
  rw [show resourceGroupKeys
      = ["href", "links", "properties", "actions", "events"] from rfl]
  simp only [List.foldl_cons, List.foldl_nil, List.nil_append]
  rw [coreEntriesFor_properties, coreEntriesFor_actions, coreEntriesFor_events]
  rfl

/-- C6: a single-thing discovery GET answers the thing's link-format
encoding followed by the two trailer entries — hence it ends in
`,</>,</.well-known/core>` — and a multi-thing discovery GET answers the
comma-joined per-thing encodings in registry order followed by the same two
trailers. -/
theorem claim_C6 (req : CoapRequest) (t : Thing) (sname gname : String)
    (tid : Option String) (ts : List Thing) :
    coapCoreGet req (Things.single t sname) tid
      = some (getCoreLinkFormat (getDescription req t)
          ++ ",</>,</.well-known/core>") ∧
    (∃ s, coapCoreGet req (Things.single t sname) tid
      = some (s ++ ",</>,</.well-known/core>")) ∧
    (ts ≠ [] →
      coapCoresGet req (Things.multiple ts gname)
        = joinComma (ts.map (fun th => getCoreLinkFormat (getDescription req th)))
          ++ ",</>,</.well-known/core>") := by
  refine ⟨rfl, ⟨getCoreLinkFormat (getDescription req t), rfl⟩, ?_⟩
  intro hts
  have hmap : ts.map (fun th => getCoreLinkFormat (getDescription req th)) ≠ [] := by
    simpa using hts
  show joinComma (ts.map (fun th => getCoreLinkFormat (getDescription req th))
      ++ ["</>", "</.well-known/core>"]) = _
  rw [joinComma_append _ _ hmap (by simp)]
  rw [strAppend_assoc]
  congr 1

/-- C6 witness: instantiated on the lamp in a one-element multi-thing
registry and a host. -/
theorem claim_C6_witness :
    coapCoresGet { host := "localhost" } (Things.multiple [lampThing] "G")
      = joinComma ([lampThing].map (fun th =>
          getCoreLinkFormat (getDescription { host := "localhost" } th)))
        ++ ",</>,</.well-known/core>" :=
  (claim_C6 { host := "localhost" } lampThing "S" "G" none [lampThing]).2.2
    (by simp)

end WebThing
